import Mathlib

/-!
Verification of the label-generation engine (`label_engine.py`).

The Python source is shallowly embedded: text is `List Char`, the regular
expressions of the source are translated into executable character-list
scanners with the same matching semantics (leftmost match, greedy/lazy
repetition resolved as in the source patterns, case-insensitive comparison
where the source passes `re.IGNORECASE`), fallible paths are `Option`, and
the one place where the source can raise (compiling a pattern built from an
unsanitised `target_size`) is an `Except`.  Geometry is exact rational
arithmetic; the reportlab unit `mm` is the exact rational 360/127 points.
-/

/-- Text is modelled as a list of characters. -/
abbrev Str := List Char

/-- Upper/lower case pairs used for case-insensitive matching: the ASCII
letters plus the Russian Cyrillic alphabet (А..Я and Ё), which is what the
case-insensitive patterns of `label_engine.py` need to fold. -/
def lowerPairs : List (Char × Char) :=
  [('A', 'a'), ('B', 'b'), ('C', 'c'), ('D', 'd'), ('E', 'e'), ('F', 'f'),
   ('G', 'g'), ('H', 'h'), ('I', 'i'), ('J', 'j'), ('K', 'k'), ('L', 'l'),
   ('M', 'm'), ('N', 'n'), ('O', 'o'), ('P', 'p'), ('Q', 'q'), ('R', 'r'),
   ('S', 's'), ('T', 't'), ('U', 'u'), ('V', 'v'), ('W', 'w'), ('X', 'x'),
   ('Y', 'y'), ('Z', 'z'),
   ('А', 'а'), ('Б', 'б'), ('В', 'в'), ('Г', 'г'), ('Д', 'д'), ('Е', 'е'),
   ('Ж', 'ж'), ('З', 'з'), ('И', 'и'), ('Й', 'й'), ('К', 'к'), ('Л', 'л'),
   ('М', 'м'), ('Н', 'н'), ('О', 'о'), ('П', 'п'), ('Р', 'р'), ('С', 'с'),
   ('Т', 'т'), ('У', 'у'), ('Ф', 'ф'), ('Х', 'х'), ('Ц', 'ц'), ('Ч', 'ч'),
   ('Ш', 'ш'), ('Щ', 'щ'), ('Ъ', 'ъ'), ('Ы', 'ы'), ('Ь', 'ь'), ('Э', 'э'),
   ('Ю', 'ю'), ('Я', 'я'), ('Ё', 'ё')]

/-- Lower-case a character (identity outside the alphabets above). -/
def lowerChar (c : Char) : Char :=
  match lowerPairs.find? (fun p => p.1 == c) with
  | some p => p.2
  | none => c

/-- `ciStarts pat s`: does `s` start with the (already lower-case) literal
pattern `pat`, compared case-insensitively?  This is how an `re.IGNORECASE`
literal matches at a fixed position. -/
def ciStarts : Str → Str → Bool
  | [], _ => true
  | _ :: _, [] => false
  | p :: ps, c :: cs => (lowerChar c == p) && ciStarts ps cs

/-- First case-insensitive occurrence of the literal `pat` in `s`:
returns the text before the occurrence and the text after it
(`re.search` on a literal pattern under `re.IGNORECASE`). -/
def splitFirstCI (pat : Str) : Str → Option (Str × Str)
  | [] => if ciStarts pat [] then some ([], []) else none
  | c :: cs =>
    if ciStarts pat (c :: cs) then some ([], (c :: cs).drop pat.length)
    else
      match splitFirstCI pat cs with
      | some pr => some (c :: pr.1, pr.2)
      | none => none

/-- Does `s` contain a case-insensitive occurrence of the literal `pat`? -/
def containsCI (pat : Str) : Str → Bool
  | [] => ciStarts pat []
  | c :: cs => ciStarts pat (c :: cs) || containsCI pat cs

/-- First exact (case-sensitive) occurrence of the literal `pat` in `s`:
text before the occurrence and text after it. -/
def splitFirstSeq (pat : Str) : Str → Option (Str × Str)
  | [] => if pat.isPrefixOf [] then some ([], []) else none
  | c :: cs =>
    if pat.isPrefixOf (c :: cs) then some ([], (c :: cs).drop pat.length)
    else
      match splitFirstSeq pat cs with
      | some pr => some (c :: pr.1, pr.2)
      | none => none

/-- Line-break characters recognised by the `[^\n\r]*` captures of the
source patterns. -/
def isNL (c : Char) : Bool := c == '\n' || c == '\r'

/-- The rest of the current line: what `([^\n\r]*)` captures. -/
def takeLine (s : Str) : Str := s.takeWhile (fun c => !isNL c)

/-- ASCII whitespace, as matched by `\s` and stripped by `str.strip()`.
(The Unicode-only whitespace code points also stripped by Python do not
occur in the texts this engine handles and are not modelled.) -/
def isWS (c : Char) : Bool :=
  c == ' ' || c == '\t' || c == '\n' || c == '\r' || c == '\x0b' || c == '\x0c'

/-- `str.strip()`: drop whitespace from both ends. -/
def stripStr (s : Str) : Str :=
  ((s.dropWhile isWS).reverse.dropWhile isWS).reverse

/-- Numeric value of a string of ASCII digits. -/
def digitsToNat (s : Str) : Nat :=
  s.foldl (fun a c => 10 * a + (c.toNat - '0'.toNat)) 0

/-- Split an optional leading sign: returns (rest, isNegative).
Models the sign handling of Python `int(str)` and `float(str)`. -/
def splitSign : Str → Str × Bool
  | '+' :: t => (t, false)
  | '-' :: t => (t, true)
  | t => (t, false)

/-- Python `int(str)` on the decimal strings this engine meets: strip
whitespace, optional sign, one or more ASCII digits; anything else is a
`ValueError` (`none`).  (Underscore separators and non-ASCII digits, which
Python also accepts, do not occur here and are not modelled.) -/
def pyParseInt (v : Str) : Option Int :=
  let s := stripStr v
  let core := splitSign s
  if core.1 ≠ [] ∧ core.1.all Char.isDigit then
    some (if core.2 then -(digitsToNat core.1 : Int) else (digitsToNat core.1 : Int))
  else none

/-- Python `float(str)` on the plain decimal literals this engine meets:
strip whitespace, optional sign, digits with an optional fractional part
(`"3"`, `"3."`, `".5"`, `"3.0"`); anything else — including the exponent,
`inf` and `nan` forms whose downstream `int()` conversion also ends in the
defaulted path — is `none`. -/
def pyParseFloat (v : Str) : Option ℚ :=
  let s := stripStr v
  let core := splitSign s
  let ip := core.1.takeWhile Char.isDigit
  let r := core.1.drop ip.length
  match r with
  | [] =>
    if ip = [] then none
    else some (if core.2 then -(digitsToNat ip : ℚ) else (digitsToNat ip : ℚ))
  | '.' :: fr =>
    if fr.all Char.isDigit ∧ (ip ≠ [] ∨ fr ≠ []) then
      let mantissa : ℚ := (digitsToNat (ip ++ fr) : ℚ) / (10 ^ fr.length : ℚ)
      some (if core.2 then -mantissa else mantissa)
    else none
  | _ => none

/-- Python `int(float)` truncation toward zero. -/
def pyTrunc (q : ℚ) : Int := if q < 0 then -(Rat.floor (-q)) else Rat.floor q

/-! ## Field extraction (`label_engine.py`, helper functions) -/

/-- `extract_composition` (label_engine.py:59-73): the first case-insensitive
occurrence of the marker `"Состав:"`; the regex `Состав:([^\n\r]*)` captures
the rest of that line, and the source strips the capture. -/
def extract_composition (text : Str) : Option Str :=
  match splitFirstCI ("состав:".data) text with
  | some pr => some (stripStr (takeLine pr.2))
  | none => none

/-- The three manufacturer-address markers of the alternation in
`extract_manufacturer` (label_engine.py:88), in pattern order. -/
def manufacturerMarkers : List Str :=
  [("адрес изготовления".data), ("адрес производителя".data), ("адрес производитель".data)]

/-- Try one alternation branch followed by the literal `':'` at the head of
`s`; on success return the text after the colon. -/
def tryMarkerColon (marker : Str) (s : Str) : Option Str :=
  if ciStarts marker s then
    match s.drop marker.length with
    | ':' :: r => some r
    | _ => none
  else none

/-- Try the full alternation `(?:Адрес изготовления|Адрес производителя|Адрес производитель):`
at the head of `s`, branches in pattern order (regex alternation backtracks
into later branches when the following `':'` fails). -/
def matchMfrAt (s : Str) : Option Str :=
  (tryMarkerColon (manufacturerMarkers.get! 0) s).orElse fun _ =>
    (tryMarkerColon (manufacturerMarkers.get! 1) s).orElse fun _ =>
      tryMarkerColon (manufacturerMarkers.get! 2) s

/-- Leftmost-position scan for the manufacturer alternation (`re.search`). -/
def scanMfr : Str → Option Str
  | [] => none
  | c :: cs =>
    match matchMfrAt (c :: cs) with
    | some r => some r
    | none => scanMfr cs

/-- `extract_manufacturer` (label_engine.py:75-89): first match of the
three-way marker alternation, capture the rest of the line, strip. -/
def extract_manufacturer (text : Str) : Option Str :=
  (scanMfr text).map (fun r => stripStr (takeLine r))

/-- The character class `[\d\-–\s]` of the age pattern. -/
def ageClassChar (c : Char) : Bool :=
  Char.isDigit c || c == '-' || c == '–' || isWS c

/-- Try the pattern `Возраст:?\s*([\d\-–\s]+лет?)` (case-insensitive) at the
head of `s`; on success return the text captured by the group (before the
final `.strip()`).  The optional colon is forced when present (a colon is not
in the class, so skipping it cannot help); `\s*` keeps its maximal share of
the class run `p`, giving the run back one character only when `p` is all
whitespace (the group needs at least one character); `ле` can only start at
the first non-class character, so no further backtracking can occur. -/
def ageCapture (s2 : Str) : Option Str :=
  let p := s2.takeWhile ageClassChar
  let rest := s2.drop p.length
  if p ≠ [] ∧ ciStarts ("ле".data) rest then
    let ws0 := p.takeWhile isWS
    let core := if ws0.length = p.length then p.drop (p.length - 1) else p.drop ws0.length
    let t := match rest.drop 2 with
      | c :: _ => if lowerChar c == 'т' then [c] else []
      | [] => []
    some (core ++ rest.take 2 ++ t)
  else none

/-- See `ageCapture`: the optional colon of `Возраст:?` is consumed exactly
when present (a colon is not in the following class, so the engine cannot
succeed by skipping a present colon). -/
def ageMatchAt (s : Str) : Option Str :=
  if ciStarts ("возраст".data) s then
    let s1 := s.drop ("возраст".data).length
    ageCapture (if s1.head? = some ':' then s1.tail else s1)
  else none

/-- Leftmost-position scan for the age pattern (`re.search`). -/
def scanAge : Str → Option Str
  | [] => none
  | c :: cs =>
    match ageMatchAt (c :: cs) with
    | some r => some r
    | none => scanAge cs

/-- `extract_age_as_size` (label_engine.py:159-162):
`re.search(r"Возраст:?\s*([\d\-–\s]+лет?)", text, re.IGNORECASE)`, stripped. -/
def extract_age_as_size (text : Str) : Option Str :=
  (scanAge text).map stripStr

/-! ## Measurement resolution (`extract_measurements`, label_engine.py:91-152) -/

/-- The block regex `Замеры:(.*?)(?:\n\n|$)` with `re.DOTALL`: everything
after the first case-insensitive `"Замеры:"` up to the first blank line
(`\n\n`), else up to the end of the text (`$` also matches just before a
final `'\n'`). -/
def zameryBlock (text : Str) : Option Str :=
  match splitFirstCI ("замеры:".data) text with
  | none => none
  | some pr =>
    match splitFirstSeq ('\n' :: '\n' :: []) pr.2 with
    | some q => some q.1
    | none =>
      if pr.2.getLast? = some '\n' then some pr.2.dropLast else some pr.2

/-- Python `str.splitlines()` restricted to the `'\n'`, `'\r'` and `"\r\n"`
line boundaries (the only ones these descriptions contain): no trailing
empty line for a terminal newline. -/
def pySplitlines : Str → List Str
  | [] => []
  | c :: t =>
    if c = '\n' then [] :: pySplitlines t
    else if c = '\r' then
      match t with
      | '\n' :: t2 => [] :: pySplitlines t2
      | [] => [[]]
      | d :: t2 => [] :: pySplitlines (d :: t2)
    else
      match pySplitlines t with
      | [] => [[c]]
      | l :: ls => (c :: l) :: ls

/-- The tail `\s*\((.*?)\)` of the size-line pattern: greedy `\s*` (no
backtracking can help, `'('` is not whitespace), a literal `'('`, then the
lazy capture up to the first `')'`, which must exist. -/
def matchParenTail (s : Str) : Option Str :=
  match s.dropWhile isWS with
  | '(' :: r => if r.contains ')' then some (r.takeWhile (fun c => !(c == ')'))) else none
  | _ => none

/-- `re.match(rf"\s*{target_size}\s*\((.*?)\)", line)` for a `target_size` of
literal characters: the leading `\s*` takes `k` whitespace characters, tried
greedily from the maximal run downwards, then the size token must follow
exactly (this inner pattern is compiled without `re.IGNORECASE`). -/
def matchSizeLine (ts line : Str) : Option Str :=
  let wsLen := (line.takeWhile isWS).length
  (List.range (wsLen + 1)).reverse.findSome? (fun k =>
    let r := line.drop k
    if ts.isPrefixOf r then matchParenTail (r.drop ts.length) else none)

/-- The keyword table of `extract_measurements` (label_engine.py:127-139),
in insertion order (Python dicts iterate in insertion order). -/
def keyword_map : List (Str × Str) :=
  [(("длина от плеча".data), ("длина".data)),
   (("длина кофты от плеча".data), ("длина".data)),
   (("вся длина от плеча".data), ("длина".data)),
   (("вся длина".data), ("длина".data)),
   (("рукав до горловины".data), ("рукав".data)),
   (("рукав до плеча".data), ("рукав".data)),
   (("рукав до капюшона".data), ("рукав".data)),
   (("обхват груди".data), ("обхват груди".data)),
   (("шаговой".data), ("шаговой".data)),
   (("шаговой штанишек".data), ("шаговой".data)),
   (("обхват талии".data), ("обхват талии".data))]

/-- The tail `\s*(\d+\s*см)` of a keyword pattern at a fixed position:
whitespace, then the captured group — one or more digits, whitespace, and
the two characters matched case-insensitively against `"см"`.  All three
repetitions are forced (a digit is not whitespace and not `'с'`), so the
greedy semantics are deterministic. -/
def measTail (s : Str) : Option Str :=
  let s1 := s.dropWhile isWS
  let ds := s1.takeWhile Char.isDigit
  if ds = [] then none
  else
    let s2 := s1.drop ds.length
    let ws := s2.takeWhile isWS
    let s3 := s2.drop ws.length
    if ciStarts ("см".data) s3 then some (ds ++ ws ++ s3.take 2) else none

/-- `re.search(rf"{re.escape(raw_key)}\s*(\d+\s*см)", inner_text, re.IGNORECASE)`:
leftmost occurrence of the escaped keyword whose tail also matches; returns
the captured group. -/
def searchKeyMeas (key : Str) : Str → Option Str
  | [] => none
  | c :: cs =>
    if ciStarts key (c :: cs) then
      match measTail ((c :: cs).drop key.length) with
      | some g => some g
      | none => searchKeyMeas key cs
    else searchKeyMeas key cs

/-- The body of `extract_measurements` run on the text captured by the
parentheses of a matched size line (label_engine.py:123-148): strip, keep
only what follows the first comma (if any, stripped again), then collect
`"<label> <digits> см"` fragments in keyword-table order and join them with
`", "`; `none` when no keyword matched. -/
def processMatchedInner (inner : Str) : Option Str :=
  let it0 := stripStr inner
  let it :=
    match splitFirstSeq (',' :: []) it0 with
    | some pr => stripStr pr.2
    | none => it0
  let parts := keyword_map.filterMap (fun kv =>
    (searchKeyMeas kv.1 it).map (fun g => kv.2 ++ ' ' :: stripStr g))
  if parts = [] then none else some (List.intercalate (", ".data) parts)

/-- The line loop of `extract_measurements`: the first line matching the
size pattern decides the result (which may itself be `none` when no keyword
matched inside it); no further line is examined. -/
def scanSizeLines (ts : Str) : List Str → Option Str
  | [] => none
  | l :: ls =>
    match matchSizeLine ts l with
    | some inner => processMatchedInner inner
    | none => scanSizeLines ts ls

/-- Parenthesis balance of the raw `target_size` interpolated into
`rf"\s*{target_size}\s*\((.*?)\)"`.  An unbalanced parenthesis in the
interpolated token makes `re.compile` raise `re.error`; this is the compile
failure the development exhibits (a token free of regex metacharacters is
always balanced and always compiles). -/
def parensBalancedAux : Str → Nat → Bool
  | [], d => d == 0
  | c :: t, d =>
    if c = '(' then parensBalancedAux t (d + 1)
    else if c = ')' then
      match d with
      | 0 => false
      | e + 1 => parensBalancedAux t e
    else parensBalancedAux t d

/-- See `parensBalancedAux`. -/
def parensBalanced (s : Str) : Bool := parensBalancedAux s 0

/-- The regex metacharacters; a token avoiding all of them is matched as a
literal by the interpolated pattern and always compiles. -/
def regexSpecial (c : Char) : Bool :=
  c == '\\' || c == '.' || c == '^' || c == '$' || c == '*' || c == '+' ||
  c == '?' || c == '[' || c == ']' || c == '(' || c == ')' || c == '|' ||
  c == Char.ofNat 123 || c == Char.ofNat 125

/-- `extract_measurements` (label_engine.py:91-152).  A falsy `target_size`
(absent or empty) returns `none`; no `"Замеры:"` block returns `none`; an
empty block (no lines) returns `none` before the per-line pattern is ever
compiled; otherwise the first `re.match` call compiles
`rf"\s*{target_size}\s*\((.*?)\)"`, which raises `re.error` when the
interpolated token is unbalanced (modelled by `parensBalanced`), and
otherwise the line scan decides the result.  The `measurements.log` side
channel does not affect the returned value and is not modelled. -/
def extract_measurements (text : Str) (target_size : Option Str) : Except Unit (Option Str) :=
  match target_size with
  | none => Except.ok none
  | some ts =>
    if ts = [] then Except.ok none
    else
      match zameryBlock text with
      | none => Except.ok none
      | some blk =>
        let lines := pySplitlines blk
        if lines = [] then Except.ok none
        else if parensBalanced ts then Except.ok (scanSizeLines ts lines)
        else Except.error ()

/-! ## Size classification (`is_size_value`, label_engine.py:316-325) -/

/-- The character class `[A-Za-zА-Яа-я]` of the first test in
`is_size_value`: ASCII letters and the Cyrillic ranges А-Я and а-я.
(The code points Ё and ё lie outside both Cyrillic ranges.) -/
def isRegexLetter (c : Char) : Bool :=
  ('A' ≤ c && c ≤ 'Z') || ('a' ≤ c && c ≤ 'z') ||
  ('А' ≤ c && c ≤ 'Я') || ('а' ≤ c && c ≤ 'я')

/-- The prefix pattern `\d+\s*[\-–]\s*\d+` of the second test (`re.match`):
digits, optional whitespace, a dash or en-dash, optional whitespace, digits.
All repetitions are deterministic (a dash is neither a digit nor
whitespace). -/
def rangeMatch (v : Str) : Bool :=
  let ds := v.takeWhile Char.isDigit
  if ds = [] then false
  else
    match (v.drop ds.length).dropWhile isWS with
    | c :: rest =>
      if c == '-' || c == '–' then
        match rest.dropWhile isWS with
        | d :: _ => Char.isDigit d
        | [] => false
      else false
    | [] => false

/-- `is_size_value` (label_engine.py:316-325): letter anywhere → size;
else numeric-range prefix → size; else an integer parse decides by `< 56`;
a failed parse → not a size. -/
def is_size_value (value : Str) : Bool :=
  if value.any isRegexLetter then true
  else if rangeMatch value then true
  else
    match pyParseInt value with
    | some n => decide (n < 56)
    | none => false

/-- The size/height wording chosen on the article line
(label_engine.py:329): `"Размер"` when `is_size_value`, else `"Рост"`. -/
def size_label (size_val : Str) : Str :=
  if is_size_value size_val then ("Размер".data) else ("Рост".data)

/-- Membership of "Cyrillic letter" as the specification words it: the
Unicode Cyrillic block U+0400–U+04FF.  This follows the spec text
("contains any Latin or Cyrillic letter"), to be compared with the
source-derived class `isRegexLetter`. -/
def isCyrillicLetterSpec (c : Char) : Bool :=
  Char.ofNat 1024 ≤ c && c ≤ Char.ofNat 1279

/-! ## Quantity expansion (`get_product_quantity`, `generate_labels_entry`) -/

/-- A product record as the engine reads it: a title, a free-text
description (`content`), and the meta mapping (association list of
meta-key/value pairs, e.g. `_stock`, `_sku`, attribute slugs). -/
structure Product where
  title : Str
  content : Str
  meta : List (Str × Str)
deriving DecidableEq

/-- `dict.get(key, default)` on the meta mapping. -/
def metaGetD (meta : List (Str × Str)) (k dflt : Str) : Str :=
  match meta.find? (fun kv => kv.1 == k) with
  | some kv => kv.2
  | none => dflt

/-- `get_product_quantity` (label_engine.py:213-223): 1 when stock-based
expansion is off; otherwise `meta.get('_stock', '1')`, then
`int(float(raw_qty)) if raw_qty else 1`, with any exception from the
conversion (unparsable value) caught and defaulted to 1. -/
def get_product_quantity (product : Product) (use_stock_quantity : Bool) : Int :=
  if !use_stock_quantity then 1
  else
    let raw_qty := metaGetD product.meta ("_stock".data) ("1".data)
    if raw_qty = [] then 1
    else
      match pyParseFloat raw_qty with
      | some q => pyTrunc q
      | none => 1

/-- The expansion loop of `LabelGenerator.generate_labels_entry`
(label_engine.py:493-497): `expanded_products.extend([product] * qty)` —
Python list repetition yields the empty list for a non-positive count,
which `Int.toNat` models. -/
def expand_products (products : List Product) (use_stock_quantity : Bool) : List Product :=
  products.flatMap (fun p =>
    List.replicate (get_product_quantity p use_stock_quantity).toNat p)

/-! ## Pagination (`LabelGenerator.generate_labels`, label_engine.py:283-290, 467-468) -/

/-- One observable page-level event of a generation run: a `showPage`
(page break) or the placement of the label at expanded index `idx`. -/
inductive PageEvent where
  | pageBreak : PageEvent
  | label : Nat → PageEvent
deriving DecidableEq

/-- The events of one loop iteration: a page break exactly when
`idx % labels_per_page == 0 and idx != 0`, then the label itself
(label_engine.py:283-290). -/
def labelSlotEvents (labels_per_page idx : Nat) : List PageEvent :=
  (if idx % labels_per_page = 0 ∧ idx ≠ 0 then [PageEvent.pageBreak] else []) ++
    [PageEvent.label idx]

/-- The page-level event trace of `generate_labels` over `n` expanded
products: the loop events, then the trailing `showPage` emitted iff
`len(products_list) % labels_per_page != 0` (label_engine.py:467-468). -/
def generate_labels_events (n labels_per_page : Nat) : List PageEvent :=
  (List.range n).flatMap (labelSlotEvents labels_per_page) ++
    (if n % labels_per_page ≠ 0 then [PageEvent.pageBreak] else [])

/-- The expanded indices whose label is placed immediately after a page
break in an event trace. -/
def breakPrecededLabels : List PageEvent → List Nat
  | PageEvent.pageBreak :: PageEvent.label i :: rest =>
    i :: breakPrecededLabels (PageEvent.label i :: rest)
  | _ :: rest => breakPrecededLabels rest
  | [] => []

/-! ## Geometry (`LabelGenerator.__init__` and `generate_labels`) -/

/-- The reportlab unit `mm` in points: exactly 72 / 25.4. -/
def mmUnit : ℚ := 360 / 127

/-- The geometry attributes of `LabelGenerator` (label_engine.py:234-254),
stored in points after the millimetre conversion of `__init__`. -/
structure LabelGenerator where
  page_height : ℚ
  label_width : ℚ
  min_line_height : ℚ
  barcode_height : ℚ
  bottom_margin : ℚ
  top_margin : ℚ

/-- `self.MIN_LINE_HEIGHT = self.min_line_height` (label_engine.py:253). -/
def LabelGenerator.MIN_LINE_HEIGHT (g : LabelGenerator) : ℚ := g.min_line_height

/-- `self.MAX_LINE_HEIGHT = 4.0 * mm` (label_engine.py:254). -/
def LabelGenerator.MAX_LINE_HEIGHT (_g : LabelGenerator) : ℚ := 4 * mmUnit

/-- The vertical space left for text, in points (label_engine.py:376-393):
the label column spans the full page height, so the usable height is page
height minus top and bottom margins; a present care image reserves
4 mm + 2 mm, a present barcode reserves its height + 2 mm; a 5 mm floor is
applied before the division. -/
def text_space_pts (g : LabelGenerator) (has_care_img has_barcode : Bool) : ℚ :=
  let care_mm : ℚ := if has_care_img then 4 + 2 else 0
  let bc_mm : ℚ := if has_barcode then g.barcode_height / mmUnit + 2 else 0
  let physically_used_mm := care_mm + bc_mm
  let t := (g.page_height - g.top_margin - g.bottom_margin) / mmUnit - physically_used_mm
  (if t < 5 then 5 else t) * mmUnit

/-- The resolved line height (label_engine.py:395-404): the text space
divided evenly among the text lines, clamped to
`[MIN_LINE_HEIGHT, MAX_LINE_HEIGHT]`; `MIN_LINE_HEIGHT` when there are no
text lines. -/
def line_height (g : LabelGenerator) (has_care_img has_barcode : Bool)
    (text_lines_count : Nat) : ℚ :=
  if 0 < text_lines_count then
    let raw := text_space_pts g has_care_img has_barcode / text_lines_count
    if raw < g.MIN_LINE_HEIGHT then g.MIN_LINE_HEIGHT
    else if raw > g.MAX_LINE_HEIGHT then g.MAX_LINE_HEIGHT
    else raw
  else g.MIN_LINE_HEIGHT

/-- `left_right_padding_mm = 2` (label_engine.py:441). -/
def left_right_padding_mm : ℚ := 2

/-- `usable_width_mm * mm` (label_engine.py:443): label width minus the two
fixed side paddings, in points. -/
def usable_width_pts (g : LabelGenerator) : ℚ :=
  (g.label_width / mmUnit - 2 * left_right_padding_mm) * mmUnit

/-- `scale_factor = (usable_width_mm * mm) / bc_width` (label_engine.py:454). -/
def scale_factor (g : LabelGenerator) (bc_width : ℚ) : ℚ :=
  usable_width_pts g / bc_width

/-- The rendered barcode width: natural width times the horizontal scale. -/
def rendered_barcode_width (g : LabelGenerator) (bc_width : ℚ) : ℚ :=
  bc_width * scale_factor g bc_width

/-- `bc_x` (label_engine.py:456-458): the barcode origin — left padding plus
centring of the scaled width inside the usable width. -/
def bc_x (g : LabelGenerator) (x bc_width : ℚ) : ℚ :=
  x + left_right_padding_mm * mmUnit +
    (usable_width_pts g - bc_width * scale_factor g bc_width) / 2

/-! ## Helper lemmas -/

theorem expand_products_ignore_stock (ps : List Product) :
    expand_products ps false = ps := by
  simp [expand_products, get_product_quantity]

theorem breakPrecededLabels_append (xs ys : List PageEvent)
    (h : xs.getLast? ≠ some PageEvent.pageBreak) :
    breakPrecededLabels (xs ++ ys) =
      breakPrecededLabels xs ++ breakPrecededLabels ys := by
  induction xs with
  | nil => simp [breakPrecededLabels]
  | cons a t ih =>
    cases t with
    | nil =>
      cases a with
      | pageBreak => simp at h
      | label i =>
        cases ys with
        | nil => simp [breakPrecededLabels]
        | cons b u => simp [breakPrecededLabels]
    | cons b t2 =>
      have h2 : (b :: t2).getLast? ≠ some PageEvent.pageBreak := by
        rwa [List.getLast?_cons_cons] at h
      cases a with
      | pageBreak =>
        cases b with
        | pageBreak => simpa [breakPrecededLabels] using ih h2
        | label i => simpa [breakPrecededLabels] using congrArg (i :: ·) (ih h2)
      | label j => simpa [breakPrecededLabels] using ih h2

theorem breakPrecededLabels_loop (n labels_per_page : Nat) :
    breakPrecededLabels ((List.range n).flatMap (labelSlotEvents labels_per_page)) =
      (List.range n).filter (fun i => decide (i % labels_per_page = 0) && decide (i ≠ 0)) := by
  induction n with
  | zero => rfl
  | succ m ih =>
    rw [List.range_succ, List.flatMap_append, List.filter_append,
      breakPrecededLabels_append]
    · rw [ih]
      congr 1
      by_cases hc : m % labels_per_page = 0 ∧ m ≠ 0
      · simp [labelSlotEvents, breakPrecededLabels, hc, List.filter, hc.1, hc.2]
      · rcases Decidable.not_and_iff_or_not.mp hc with h1 | h1 <;>
          simp [labelSlotEvents, breakPrecededLabels, List.filter, h1]
    · cases m with
      | zero => simp
      | succ k =>
        rw [List.range_succ, List.flatMap_append]
        simp only [List.flatMap_cons, List.flatMap_nil, List.append_nil]
        have : (labelSlotEvents labels_per_page k).getLast? = some (PageEvent.label k) := by
          by_cases hc : k % labels_per_page = 0 ∧ k ≠ 0 <;> simp [labelSlotEvents, hc]
        rw [List.getLast?_append_of_ne_nil, this]
        · simp
        · by_cases hc : k % labels_per_page = 0 ∧ k ≠ 0 <;> simp [labelSlotEvents, hc]

theorem loop_events_getLast (n labels_per_page : Nat) (h : 0 < n) :
    ((List.range n).flatMap (labelSlotEvents labels_per_page)).getLast? =
      some (PageEvent.label (n - 1)) := by
  cases n with
  | zero => exact absurd h (by simp)
  | succ k =>
    rw [List.range_succ, List.flatMap_append]
    simp only [List.flatMap_cons, List.flatMap_nil, List.append_nil]
    rw [List.getLast?_append_of_ne_nil]
    · by_cases hc : k % labels_per_page = 0 ∧ k ≠ 0 <;> simp [labelSlotEvents, hc]
    · by_cases hc : k % labels_per_page = 0 ∧ k ≠ 0 <;> simp [labelSlotEvents, hc]

/-! ## Claim theorems -/

/-- C3.  Pagination: over one generation run with `n` expanded labels and a
positive `labels_per_page`, a page break is emitted immediately before the
label of slot `i` exactly when `i % labels_per_page = 0` and `i ≠ 0`; the
final event is a trailing page break iff `n` is not an exact multiple of
`labels_per_page`; with `labels_per_page = 3` and 7 labels the breaks fall
exactly before slots 3 and 6 plus one trailing break, and with 6 labels
there is no trailing break. -/
theorem pagination_breaks (n labels_per_page : Nat) (_h : 0 < labels_per_page) :
    breakPrecededLabels (generate_labels_events n labels_per_page) =
      (List.range n).filter (fun i => decide (i % labels_per_page = 0) && decide (i ≠ 0))
  ∧ ((generate_labels_events n labels_per_page).getLast? = some PageEvent.pageBreak ↔
      n % labels_per_page ≠ 0)
  ∧ generate_labels_events 7 3 =
      [PageEvent.label 0, PageEvent.label 1, PageEvent.label 2,
       PageEvent.pageBreak, PageEvent.label 3, PageEvent.label 4, PageEvent.label 5,
       PageEvent.pageBreak, PageEvent.label 6, PageEvent.pageBreak]
  ∧ generate_labels_events 6 3 =
      [PageEvent.label 0, PageEvent.label 1, PageEvent.label 2,
       PageEvent.pageBreak, PageEvent.label 3, PageEvent.label 4, PageEvent.label 5] := by
  refine ⟨?_, ?_, by decide, by decide⟩
  · unfold generate_labels_events
    by_cases ht : n % labels_per_page ≠ 0
    · rw [if_pos ht, breakPrecededLabels_append, breakPrecededLabels_loop]
      · simp [breakPrecededLabels]
      · rcases Nat.eq_zero_or_pos n with h0 | h0
        · subst h0; simp at ht
        · rw [loop_events_getLast n labels_per_page h0]; simp
    · rw [if_neg ht, List.append_nil, breakPrecededLabels_loop]
  · unfold generate_labels_events
    by_cases ht : n % labels_per_page ≠ 0
    · rw [if_pos ht, List.getLast?_append_cons]
      simp [ht]
    · rw [if_neg ht, List.append_nil]
      rcases Nat.eq_zero_or_pos n with h0 | h0
      · subst h0; simp [ht]
      · rw [loop_events_getLast n labels_per_page h0]
        simpa using ht

/-- Witness for `pagination_breaks` at `n = 7`, `labels_per_page = 3`. -/
theorem pagination_breaks_witness :
    breakPrecededLabels (generate_labels_events 7 3) =
      (List.range 7).filter (fun i => decide (i % 3 = 0) && decide (i ≠ 0)) :=
  (pagination_breaks 7 3 (by decide)).1

/-- C4.  Line-height clamp invariant: whenever the configured bounds form an
interval, the resolved line height lies in
`[MIN_LINE_HEIGHT, MAX_LINE_HEIGHT]` for every line count; with zero text
lines it is `MIN_LINE_HEIGHT`; and for a positive line count it equals the
text space (page height minus margins minus care/barcode reservations, with
the 5 mm floor — see `text_space_pts`) divided by the line count and clamped
to the bounds. -/
theorem line_height_clamp (g : LabelGenerator) (hc hb : Bool) (n : Nat)
    (h : g.MIN_LINE_HEIGHT ≤ g.MAX_LINE_HEIGHT) :
    g.MIN_LINE_HEIGHT ≤ line_height g hc hb n
  ∧ line_height g hc hb n ≤ g.MAX_LINE_HEIGHT
  ∧ (n = 0 → line_height g hc hb n = g.MIN_LINE_HEIGHT)
  ∧ (0 < n → line_height g hc hb n =
      max g.MIN_LINE_HEIGHT (min g.MAX_LINE_HEIGHT (text_space_pts g hc hb / n))) := by
  unfold line_height
  rcases Nat.eq_zero_or_pos n with h0 | h0
  · subst h0
    simp [h]
  · rw [if_pos h0]
    set raw := text_space_pts g hc hb / (n : ℚ) with hraw
    rcases lt_trichotomy raw g.MIN_LINE_HEIGHT with hlt | heq | hgt
    · rw [if_pos hlt]
      refine ⟨le_refl _, h, by omega, fun _ => ?_⟩
      rw [min_eq_right (le_trans hlt.le h), max_eq_left hlt.le]
    · rw [if_neg (by rw [heq]; exact lt_irrefl _), if_neg (by rw [heq]; exact not_lt.mpr h)]
      refine ⟨heq.ge, heq ▸ h, by omega, fun _ => ?_⟩
      rw [min_eq_right (heq ▸ h), max_eq_right heq.ge]
    · rw [if_neg (not_lt.mpr hgt.le)]
      by_cases hmax : raw > g.MAX_LINE_HEIGHT
      · rw [if_pos hmax]
        refine ⟨h, le_refl _, by omega, fun _ => ?_⟩
        rw [min_eq_left hmax.le, max_eq_right h]
      · rw [if_neg hmax]
        refine ⟨hgt.le, not_lt.mp hmax, by omega, fun _ => ?_⟩
        rw [min_eq_right (not_lt.mp hmax), max_eq_right hgt.le]

/-- Witness for `line_height_clamp`: the default configuration (70 mm page,
2 mm top margin, 2 mm minimum line height, 6 mm barcode) with care image and
barcode present and 9 text lines. -/
theorem line_height_clamp_witness :
    (⟨70 * mmUnit, 40 * mmUnit, 2 * mmUnit, 6 * mmUnit, 0, 2 * mmUnit⟩ :
        LabelGenerator).MIN_LINE_HEIGHT ≤
      line_height ⟨70 * mmUnit, 40 * mmUnit, 2 * mmUnit, 6 * mmUnit, 0, 2 * mmUnit⟩
        true true 9 :=
  (line_height_clamp ⟨70 * mmUnit, 40 * mmUnit, 2 * mmUnit, 6 * mmUnit, 0, 2 * mmUnit⟩
    true true 9
    (by norm_num [LabelGenerator.MIN_LINE_HEIGHT, LabelGenerator.MAX_LINE_HEIGHT, mmUnit])).1

/-- C5.  Barcode scale: the scale factor is the usable width (label width
minus the two fixed 2 mm side paddings) over the natural width, so the
rendered width (natural width times scale) equals the usable width exactly;
the barcode starts at the left padding and its right edge stays 2 mm inside
the label boundary; for a 40 mm label the usable width is exactly 36 mm. -/
theorem barcode_scale_fills_usable (g : LabelGenerator) (x bc_width : ℚ)
    (h : bc_width ≠ 0) :
    rendered_barcode_width g bc_width = usable_width_pts g
  ∧ usable_width_pts g = g.label_width - 4 * mmUnit
  ∧ bc_x g x bc_width = x + 2 * mmUnit
  ∧ bc_x g x bc_width + rendered_barcode_width g bc_width = x + g.label_width - 2 * mmUnit
  ∧ bc_x g x bc_width + rendered_barcode_width g bc_width < x + g.label_width
  ∧ (g.label_width = 40 * mmUnit → usable_width_pts g = 36 * mmUnit) := by
  have hmm : mmUnit ≠ 0 := by norm_num [mmUnit]
  have hr : rendered_barcode_width g bc_width = usable_width_pts g := by
    unfold rendered_barcode_width scale_factor
    field_simp
  have hu : usable_width_pts g = g.label_width - 4 * mmUnit := by
    unfold usable_width_pts left_right_padding_mm
    field_simp
    ring
  have hx : bc_x g x bc_width = x + 2 * mmUnit := by
    unfold bc_x left_right_padding_mm
    rw [show bc_width * scale_factor g bc_width = rendered_barcode_width g bc_width from rfl,
      hr]
    ring
  refine ⟨hr, hu, hx, ?_, ?_, ?_⟩
  · rw [hx, hr, hu]; ring
  · rw [hx, hr, hu]
    have : (0 : ℚ) < mmUnit := by norm_num [mmUnit]
    linarith
  · intro hl
    rw [hu, hl]
    ring

/-- Witness for `barcode_scale_fills_usable`: a 40 mm label, origin 0,
natural barcode width 100 points. -/
theorem barcode_scale_fills_usable_witness :
    rendered_barcode_width ⟨70 * mmUnit, 40 * mmUnit, 2 * mmUnit, 6 * mmUnit, 0, 2 * mmUnit⟩
        100 =
      usable_width_pts ⟨70 * mmUnit, 40 * mmUnit, 2 * mmUnit, 6 * mmUnit, 0, 2 * mmUnit⟩ :=
  (barcode_scale_fills_usable
    ⟨70 * mmUnit, 40 * mmUnit, 2 * mmUnit, 6 * mmUnit, 0, 2 * mmUnit⟩ 0 100
    (by norm_num)).1

/-- C7 counterexample: `"ё"` consists of a Cyrillic letter (U+0451, inside
the Unicode Cyrillic block), yet the letter class `[A-Za-zА-Яа-я]` of
`is_size_value` does not contain it (Ё/ё lie outside both ranges), the
range pattern and the integer parse also fail, and the function returns
`false` — against the claim that any value containing a Latin or Cyrillic
letter is classified as a size. -/
theorem size_classification_counterexample :
    isCyrillicLetterSpec 'ё' = true
  ∧ ("ё".data).any isRegexLetter = false
  ∧ is_size_value ("ё".data) = false := by
  refine ⟨by decide, by decide, by decide⟩

/-- C7 amended.  `is_size_value` returns true for every value containing a
character of the class `[A-Za-zА-Яа-я]` (ASCII letters and Cyrillic А-Я/а-я —
not every Unicode Cyrillic letter: Ё and ё are outside the class); otherwise
true for every value matching the numeric range prefix `\d+\s*[-–]\s*\d+`;
otherwise, for values parsing as an integer, true iff the integer is
strictly below 56; false for every remaining value; and
`is_size_value "M" = true`, `is_size_value "9-10" = true`,
`is_size_value "50" = true`, `is_size_value "62" = false`,
`is_size_value "" = false`. -/
theorem size_classification_amended :
    (∀ v : Str, v.any isRegexLetter = true → is_size_value v = true)
  ∧ (∀ v : Str, v.any isRegexLetter = false → rangeMatch v = true → is_size_value v = true)
  ∧ (∀ (v : Str) (n : Int), v.any isRegexLetter = false → rangeMatch v = false →
      pyParseInt v = some n → (is_size_value v = true ↔ n < 56))
  ∧ (∀ v : Str, v.any isRegexLetter = false → rangeMatch v = false →
      pyParseInt v = none → is_size_value v = false)
  ∧ is_size_value ("M".data) = true
  ∧ is_size_value ("9-10".data) = true
  ∧ is_size_value ("50".data) = true
  ∧ is_size_value ("62".data) = false
  ∧ is_size_value ([] : Str) = false := by
  refine ⟨?_, ?_, ?_, ?_, by decide, by decide, by decide, by decide, by decide⟩
  · intro v h
    simp [is_size_value, h]
  · intro v h1 h2
    simp [is_size_value, h1, h2]
  · intro v n h1 h2 h3
    simp [is_size_value, h1, h2, h3]
  · intro v h1 h2 h3
    simp [is_size_value, h1, h2, h3]

/-- Witness for `size_classification_amended`: the integer clause at
`"50"`. -/
theorem size_classification_amended_witness :
    is_size_value ("50".data) = true ↔ (50 : Int) < 56 :=
  size_classification_amended.2.2.1 ("50".data) 50 (by decide) (by decide) (by decide)

/-- C1 counterexample: a product whose stock meta value is `"-3"`.
`int(float("-3"))` succeeds (no exception is raised), so the "defaulted
path" is never taken, the quantity is −3 — negative, not clamped to 1 —
and Python list repetition `[product] * (-3)` contributes zero copies,
against the claim that the count is never zero and never negative. -/
theorem quantity_negative_stock_counterexample :
    get_product_quantity ⟨("t".data), [], [(("_stock".data), ("-3".data))]⟩ true = -3
  ∧ expand_products [⟨("t".data), [], [(("_stock".data), ("-3".data))]⟩] true = []
  ∧ get_product_quantity ⟨("t".data), [], [(("_stock".data), ("0".data))]⟩ true = 0
  ∧ expand_products [⟨("t".data), [], [(("_stock".data), ("0".data))]⟩] true = [] := by
  refine ⟨by decide, by decide, by decide, by decide⟩

/-- C1 amended.  With `use_stock_quantity = false` every product contributes
exactly one copy.  With it true, the quantity is the stock meta value parsed
as a float and truncated toward zero, where a missing, empty or unparsable
value defaults to 1 — but a parsable zero or negative stock is NOT clamped:
the quantity itself can be zero or negative, and the expansion then
contributes `max(quantity, 0)` copies, i.e. zero.  Stock `"3.0"` yields
exactly 3 identical copies. -/
theorem quantity_expansion_amended :
    (∀ p : Product, get_product_quantity p false = 1)
  ∧ (∀ ps : List Product, expand_products ps false = ps)
  ∧ (∀ p : Product, p.meta.find? (fun kv => kv.1 == ("_stock".data)) = none →
      get_product_quantity p true = 1)
  ∧ (∀ p : Product, metaGetD p.meta ("_stock".data) ("1".data) ≠ [] →
      pyParseFloat (metaGetD p.meta ("_stock".data) ("1".data)) = none →
      get_product_quantity p true = 1)
  ∧ (∀ (p : Product) (q : ℚ), metaGetD p.meta ("_stock".data) ("1".data) ≠ [] →
      pyParseFloat (metaGetD p.meta ("_stock".data) ("1".data)) = some q →
      get_product_quantity p true = pyTrunc q)
  ∧ (∀ p : Product, metaGetD p.meta ("_stock".data) ("1".data) = ("3.0".data) →
      expand_products [p] true = [p, p, p])
  ∧ (∀ (p : Product) (u : Bool),
      (expand_products [p] u).length = (get_product_quantity p u).toNat)
  ∧ (∀ p : Product, get_product_quantity p true ≤ 0 → expand_products [p] true = []) := by
  refine ⟨?_, expand_products_ignore_stock, ?_, ?_, ?_, ?_, ?_, ?_⟩
  · intro p
    simp [get_product_quantity]
  · intro p h
    have : metaGetD p.meta ("_stock".data) ("1".data) = ("1".data) := by
      simp [metaGetD, h]
    simp only [get_product_quantity, this]
    decide
  · intro p h1 h2
    simp [get_product_quantity, h1, h2]
  · intro p q h1 h2
    simp [get_product_quantity, h1, h2]
  · intro p h
    have h1 : pyParseFloat ("3.0".data) =
        some ((digitsToNat ("30".data) : ℚ) / (10 ^ 1 : ℚ)) := rfl
    have hd : digitsToNat ("30".data) = 30 := by decide
    have hpf : pyParseFloat ("3.0".data) = some 3 := by
      rw [h1, hd]; norm_num
    have hq : get_product_quantity p true = 3 := by
      simp [get_product_quantity, h, hpf, pyTrunc, Rat.floor_def']
    simp [expand_products, hq, List.replicate]
  · intro p u
    simp [expand_products]
  · intro p h
    simp [expand_products, Int.toNat_of_nonpos h]

/-- Witness for `quantity_expansion_amended`: the `"3.0"` clause at a
concrete product. -/
theorem quantity_expansion_amended_witness :
    expand_products [⟨("t".data), [], [(("_stock".data), ("3.0".data))]⟩] true =
      [⟨("t".data), [], [(("_stock".data), ("3.0".data))]⟩,
       ⟨("t".data), [], [(("_stock".data), ("3.0".data))]⟩,
       ⟨("t".data), [], [(("_stock".data), ("3.0".data))]⟩] :=
  quantity_expansion_amended.2.2.2.2.2.1
    ⟨("t".data), [], [(("_stock".data), ("3.0".data))]⟩ (by decide)

theorem digit_facts {c : Char} (h : c.isDigit = true) :
    isWS c = false ∧ c ≠ '(' ∧ c ≠ ')' ∧ c ≠ '\n' ∧ c ≠ '\r' := by
  simp only [Char.isDigit, decide_eq_true_eq, Bool.and_eq_true] at h
  obtain ⟨h1, h2⟩ := h
  refine ⟨?_, ?_, ?_, ?_, ?_⟩
  · simp only [isWS, Bool.or_eq_false_iff, beq_eq_false_iff_ne, ne_eq]
    refine ⟨⟨⟨⟨⟨?_, ?_⟩, ?_⟩, ?_⟩, ?_⟩, ?_⟩ <;> (rintro rfl; revert h1 h2; decide)
  all_goals (rintro rfl; revert h1 h2; decide)

theorem containsCI_false_splitFirstCI {pat : Str} :
    ∀ {s : Str}, containsCI pat s = false → splitFirstCI pat s = none := by
  intro s
  induction s with
  | nil =>
    intro h
    simp only [containsCI] at h
    simp [splitFirstCI, h]
  | cons c cs ih =>
    intro h
    simp only [containsCI, Bool.or_eq_false_iff] at h
    simp [splitFirstCI, h.1, ih h.2]

theorem splitFirstCI_skip {p0 : Char} {ps : Str} {rest : Str}
    (hm : ciStarts (p0 :: ps) rest = true) :
    ∀ {pre : Str}, (∀ c ∈ pre, lowerChar c ≠ p0) →
      splitFirstCI (p0 :: ps) (pre ++ rest) = some (pre, rest.drop (p0 :: ps).length) := by
  intro pre
  induction pre with
  | nil =>
    intro _
    cases rest with
    | nil => simp [ciStarts] at hm
    | cons r rs => simp [splitFirstCI, hm]
  | cons a t ih =>
    intro hpre
    have ha : (lowerChar a == p0) = false := by
      simp only [beq_eq_false_iff_ne, ne_eq]
      exact hpre a (by simp)
    have hstep : ciStarts (p0 :: ps) (a :: (t ++ rest)) = false := by
      simp [ciStarts, ha]
    rw [List.cons_append]
    simp only [splitFirstCI, hstep]
    rw [ih (fun c hc => hpre c (by simp [hc]))]
    simp

theorem takeWhile_append_all {p : Char → Bool} {l r : Str} (h : ∀ c ∈ l, p c = true) :
    (l ++ r).takeWhile p = l ++ r.takeWhile p := by
  induction l with
  | nil => simp
  | cons a t ih =>
    rw [List.cons_append, List.takeWhile_cons, if_pos (h a (by simp)),
      ih (fun c hc => h c (by simp [hc])), List.cons_append]

/-- C8.  Composition extraction: a description with no case-insensitive
occurrence of the `"Состав:"` marker yields `none`; and when the marker
occurs (first occurrence, preceded by text free of the letter `с`/`С` so
that no earlier occurrence can start), the result is exactly the text
between the marker and the end of that line — the marker excluded, the
line break excluded, whitespace stripped. -/
theorem composition_extraction :
    (∀ text : Str, containsCI ("состав:".data) text = false →
      extract_composition text = none)
  ∧ (∀ pre mid rest : Str, (∀ c ∈ pre, lowerChar c ≠ 'с') →
      (∀ c ∈ mid, c ≠ '\n' ∧ c ≠ '\r') →
      extract_composition (pre ++ (("Состав:".data) ++ (mid ++ '\n' :: rest))) =
        some (stripStr mid)) := by
  constructor
  · intro text h
    rw [extract_composition, containsCI_false_splitFirstCI h]
  · intro pre mid rest hpre hmid
    have hm : ciStarts ("состав:".data) (("Состав:".data) ++ (mid ++ '\n' :: rest)) = true := rfl
    rw [extract_composition, splitFirstCI_skip hm hpre]
    have hdrop :
        List.drop (("состав:".data).length) (("Состав:".data) ++ (mid ++ '\n' :: rest)) =
          mid ++ '\n' :: rest := rfl
    have hline : takeLine (mid ++ '\n' :: rest) = mid := by
      rw [takeLine, takeWhile_append_all (fun c hc => by
        simp [isNL, (hmid c hc).1, (hmid c hc).2])]
      simp [isNL]
    dsimp only
    rw [hdrop, hline]

/-- Witness for `composition_extraction`: the marker clause at a concrete
description. -/
theorem composition_extraction_witness :
    extract_composition (("Материал: лен\n".data) ++
        (("Состав:".data) ++ ((" 95% хлопок ".data) ++ '\n' :: ("Прочее".data)))) =
      some (stripStr (" 95% хлопок ".data)) :=
  composition_extraction.2 ("Материал: лен\n".data) (" 95% хлопок ".data) ("Прочее".data)
    (by decide) (by decide)

theorem parensBalancedAux_no_paren {s : Str} (h : ∀ c ∈ s, c ≠ '(' ∧ c ≠ ')') :
    ∀ d : Nat, parensBalancedAux s d = (d == 0) := by
  induction s with
  | nil => intro d; rfl
  | cons c t ih =>
    intro d
    have hc := h c (by simp)
    simp only [parensBalancedAux]
    rw [if_neg hc.1, if_neg hc.2]
    exact ih (fun x hx => h x (by simp [hx])) d

theorem parensBalanced_no_paren {s : Str} (h : ∀ c ∈ s, c ≠ '(' ∧ c ≠ ')') :
    parensBalanced s = true := by
  rw [parensBalanced, parensBalancedAux_no_paren h]
  rfl

theorem splitFirstSeq_nn_of_no_nl {s : Str} (h : ∀ c ∈ s, c ≠ '\n') :
    splitFirstSeq ('\n' :: '\n' :: []) s = none := by
  induction s with
  | nil => rfl
  | cons c cs ih =>
    have hc : (('\n' :: '\n' :: []).isPrefixOf (c :: cs)) = false := by
      simp only [List.isPrefixOf, Bool.and_eq_false_iff, beq_eq_false_iff_ne, ne_eq]
      exact Or.inl (fun he => (h c (by simp)) he.symm)
    simp [splitFirstSeq, hc, ih (fun x hx => h x (by simp [hx]))]

theorem splitFirstSeq_nn_cons_nl {body : Str} (hne : body ≠ [])
    (h : ∀ c ∈ body, c ≠ '\n') :
    splitFirstSeq ('\n' :: '\n' :: []) ('\n' :: body) = none := by
  obtain ⟨b, bs, rfl⟩ := List.exists_cons_of_ne_nil hne
  have hb : b ≠ '\n' := h b (by simp)
  have hc : (('\n' :: '\n' :: []).isPrefixOf ('\n' :: b :: bs)) = false := by
    simp only [List.isPrefixOf, Bool.and_eq_false_iff, beq_eq_false_iff_ne, ne_eq]
    exact Or.inr (Or.inl (fun he => hb he.symm))
  have hc2 : (('\n' :: '\n' :: []).isPrefixOf (b :: bs)) = false := by
    simp only [List.isPrefixOf, Bool.and_eq_false_iff, beq_eq_false_iff_ne, ne_eq]
    exact Or.inl (fun he => hb he.symm)
  have hbs : splitFirstSeq ('\n' :: '\n' :: []) bs = none :=
    splitFirstSeq_nn_of_no_nl (fun x hx => h x (by simp [hx]))
  simp only [splitFirstSeq, hc, hc2, Bool.false_eq_true, if_false, hbs]

theorem pySplitlines_no_nl {l : Str} (hne : l ≠ [])
    (h : ∀ c ∈ l, c ≠ '\n' ∧ c ≠ '\r') : pySplitlines l = [l] := by
  induction l with
  | nil => exact absurd rfl hne
  | cons c t ih =>
    have hc := h c (by simp)
    rw [pySplitlines.eq_def]
    dsimp only
    rw [if_neg hc.1, if_neg hc.2]
    cases t with
    | nil => rfl
    | cons d ds =>
      rw [ih (by simp) (fun x hx => h x (by simp [hx]))]

theorem zameryBlock_structured {mid : Str} (hnn : ∀ c ∈ mid, c ≠ '\n') :
    zameryBlock (("Замеры:".data) ++ '\n' :: (mid ++ (')' :: []))) =
      some ('\n' :: (mid ++ (')' :: []))) := by
  have hsplit :
      splitFirstCI ("замеры:".data) (("Замеры:".data) ++ '\n' :: (mid ++ (')' :: []))) =
        some ([], '\n' :: (mid ++ (')' :: []))) := by
    have hm : ciStarts ("замеры:".data)
        (("Замеры:".data) ++ '\n' :: (mid ++ (')' :: []))) = true := rfl
    have := @splitFirstCI_skip 'з' ("амеры:".data)
      (("Замеры:".data) ++ '\n' :: (mid ++ (')' :: []))) hm [] (by simp)
    simpa using this
  rw [zameryBlock, hsplit]
  dsimp only
  have hseq : splitFirstSeq ('\n' :: '\n' :: []) ('\n' :: (mid ++ (')' :: []))) = none := by
    refine splitFirstSeq_nn_cons_nl (by simp) ?_
    intro c hc
    rcases List.mem_append.mp hc with h1 | h1
    · exact hnn c h1
    · simp at h1
      subst h1
      decide
  rw [hseq]
  have hlast : ('\n' :: (mid ++ (')' :: []))).getLast? = some ')' := by
    rw [show ('\n' :: (mid ++ (')' :: []))) = ('\n' :: mid) ++ [')'] by simp]
    exact List.getLast?_concat _
  rw [if_neg (by rw [hlast]; simp)]

theorem matchSizeLine_nil {ts : Str} (h : ts ≠ []) : matchSizeLine ts [] = none := by
  obtain ⟨a, t, rfl⟩ := List.exists_cons_of_ne_nil h
  rfl

theorem matchParenTail_exact {inner : Str} (h : ∀ c ∈ inner, c ≠ ')') :
    matchParenTail ('(' :: (inner ++ (')' :: []))) = some inner := by
  have hstep : matchParenTail ('(' :: (inner ++ (')' :: []))) =
      if ((inner ++ (')' :: [])).contains ')') = true
      then some ((inner ++ (')' :: [])).takeWhile (fun c => !(c == ')'))) else none := rfl
  have hmem : ')' ∈ inner ++ (')' :: []) := by simp
  have hcontains : ((inner ++ (')' :: [])).contains ')') = true := by
    exact List.elem_iff.mpr hmem
  have htake : (inner ++ (')' :: [])).takeWhile (fun c => !(c == ')')) = inner := by
    rw [takeWhile_append_all (fun c hc => by simp [h c hc])]
    simp
  rw [hstep, if_pos hcontains, htake]

theorem matchSizeLine_at_zero {a : Char} {t rest : Str} (ha : isWS a = false) :
    matchSizeLine (a :: t) ((a :: t) ++ rest) = matchParenTail rest := by
  have h1 : ((a :: t) ++ rest).takeWhile isWS = [] := by
    rw [List.cons_append, List.takeWhile_cons, if_neg (by simp [ha])]
  unfold matchSizeLine
  rw [h1]
  show (List.range ((0 : Nat) + 1)).reverse.findSome? (fun k =>
      if (a :: t).isPrefixOf (List.drop k ((a :: t) ++ rest)) = true
      then matchParenTail (List.drop (a :: t).length (List.drop k ((a :: t) ++ rest)))
      else none) = matchParenTail rest
  rw [show (List.range ((0 : Nat) + 1)).reverse = [0] from by decide]
  simp only [List.findSome?]
  rw [List.drop_zero, if_pos (List.isPrefixOf_iff_prefix.mpr (List.prefix_append _ _)),
    List.drop_left]
  cases matchParenTail rest <;> rfl

/-- C6.  Measurement resolution: an absent or empty `target_size` always
yields `None`; for a non-empty all-digit size token and a description whose
`"Замеры:"` block contains the line `<size>(<inner>)`, the result is exactly
the per-line keyword pass `processMatchedInner` on the parenthesized
content — text before the first comma discarded, fragments
`"<label> <digits> см"` collected in keyword-table order (not source order)
and comma-joined, `None` when no keyword matches.  The concrete cases show
the table ordering (`длина` before `обхват груди` even though the source
order is reversed), the comma-discard rule, and the no-keyword `None`. -/
theorem measurements_resolution :
    (∀ text : Str, extract_measurements text none = Except.ok none)
  ∧ (∀ text : Str, extract_measurements text (some []) = Except.ok none)
  ∧ (∀ ts inner : Str, ts ≠ [] → (∀ c ∈ ts, c.isDigit = true) →
      (∀ c ∈ inner, c ≠ ')' ∧ c ≠ '\n' ∧ c ≠ '\r') →
      extract_measurements (("Замеры:\n".data) ++ (ts ++ '(' :: (inner ++ (')' :: []))))
          (some ts) = Except.ok (processMatchedInner inner))
  ∧ extract_measurements ("Замеры:\n30 (обхват груди 30 см вся длина 40 см)".data)
      (some ("30".data)) = Except.ok (some ("длина 40 см, обхват груди 30 см".data))
  ∧ extract_measurements ("Замеры:\n30 (вся длина 99 см, обхват груди 30 см)".data)
      (some ("30".data)) = Except.ok (some ("обхват груди 30 см".data))
  ∧ extract_measurements ("Замеры:\n30 (ширина 5 см)".data) (some ("30".data)) =
      Except.ok none := by
  refine ⟨fun _ => rfl, fun _ => rfl, ?_, by rfl, by rfl, by rfl⟩
  intro ts inner hne hd hi
  obtain ⟨a, t, rfl⟩ := List.exists_cons_of_ne_nil hne
  have ha : isWS a = false := (digit_facts (hd a (by simp))).1
  have hmidnn : ∀ c ∈ (a :: t) ++ '(' :: inner, c ≠ '\n' := by
    intro c hc
    rcases List.mem_append.mp hc with h1 | h1
    · exact (digit_facts (hd c h1)).2.2.2.1
    · rcases List.mem_cons.mp h1 with h2 | h2
      · subst h2; decide
      · exact (hi c h2).2.1
  have hmidnr : ∀ c ∈ (a :: t) ++ '(' :: inner, c ≠ '\r' := by
    intro c hc
    rcases List.mem_append.mp hc with h1 | h1
    · exact (digit_facts (hd c h1)).2.2.2.2
    · rcases List.mem_cons.mp h1 with h2 | h2
      · subst h2; decide
      · exact (hi c h2).2.2
  have htext : ("Замеры:\n".data) ++ ((a :: t) ++ '(' :: (inner ++ (')' :: []))) =
      ("Замеры:".data) ++ '\n' :: ((((a :: t) ++ '(' :: inner)) ++ (')' :: [])) := by
    simp
  have hblk := @zameryBlock_structured ((a :: t) ++ '(' :: inner) hmidnn
  have hps : pySplitlines ('\n' :: ((((a :: t) ++ '(' :: inner)) ++ (')' :: []))) =
      [] :: ((((a :: t) ++ '(' :: inner)) ++ (')' :: [])) :: [] := by
    rw [pySplitlines.eq_def]
    dsimp only
    rw [if_pos rfl]
    rw [pySplitlines_no_nl (by simp) ?_]
    intro c hc
    rcases List.mem_append.mp hc with h1 | h1
    · exact ⟨hmidnn c h1, hmidnr c h1⟩
    · simp at h1
      subst h1
      exact ⟨by decide, by decide⟩
  have hpb : parensBalanced (a :: t) = true :=
    parensBalanced_no_paren (fun c hc => ⟨(digit_facts (hd c hc)).2.1,
      (digit_facts (hd c hc)).2.2.1⟩)
  have hline2 : (((a :: t) ++ '(' :: inner)) ++ (')' :: []) =
      (a :: t) ++ ('(' :: (inner ++ (')' :: []))) := by
    simp
  have hscan : scanSizeLines (a :: t)
      ([] :: ((((a :: t) ++ '(' :: inner)) ++ (')' :: [])) :: []) =
        processMatchedInner inner := by
    simp only [scanSizeLines, matchSizeLine_nil (List.cons_ne_nil a t)]
    rw [hline2, matchSizeLine_at_zero ha,
      matchParenTail_exact (fun c hc => (hi c hc).1)]
  rw [extract_measurements, htext]
  dsimp only
  rw [if_neg (by simp), hblk]
  dsimp only
  rw [hps]
  rw [if_neg (by simp), if_pos hpb, hscan]

/-- Witness for `measurements_resolution`: the structured clause at the size
token `"30"` and inner content `"вся длина 5 см"`. -/
theorem measurements_resolution_witness :
    extract_measurements
        (("Замеры:\n".data) ++ (("30".data) ++ '(' :: (("вся длина 5 см".data) ++ (')' :: []))))
        (some ("30".data)) =
      Except.ok (processMatchedInner ("вся длина 5 см".data)) :=
  measurements_resolution.2.2.1 ("30".data) ("вся длина 5 см".data)
    (by decide) (by decide) (by decide)

/-- C2 counterexample: `extract_measurements` is not total.  For the
description `"Замеры:\nx"` (a non-empty measurements block) and the
non-empty target size `")"`, the interpolated pattern
`\s*)\s*\((.*?)\)` fails to compile — Python raises
`re.error: unbalanced parenthesis` at the first `re.match` call — against
the claim that every extraction function returns a value or `None` and
never raises. -/
theorem extraction_totality_counterexample :
    extract_measurements ("Замеры:\nx".data) (some (")".data)) = Except.error () ∧
    parensBalanced (")".data) = false := by
  exact ⟨rfl, rfl⟩

/-- C2 amended.  `extract_composition`, `extract_manufacturer` and
`extract_age_as_size` are total by construction (they are plain functions
into `Option`, embedding source code with no failing operation).
`extract_measurements` is total — returns a value or `None`, never raises —
for every target size made of regex-literal characters (no metacharacter,
in particular every all-digit or alphanumeric size), and for an absent
size; but a target size whose interpolation breaks the pattern (an
unbalanced parenthesis) raises a regex-compilation error as soon as the
description has a non-empty `"Замеры:"` block. -/
theorem extraction_totality_amended :
    (∀ text : Str, extract_measurements text none = Except.ok none)
  ∧ (∀ text ts : Str, ts.all (fun c => !regexSpecial c) = true →
      ∃ r : Option Str, extract_measurements text (some ts) = Except.ok r)
  ∧ (∀ ts : Str, ts ≠ [] → parensBalanced ts = false →
      extract_measurements ("Замеры:\nx".data) (some ts) = Except.error ()) := by
  refine ⟨fun _ => rfl, ?_, ?_⟩
  · intro text ts hlit
    have hpb : parensBalanced ts = true := by
      refine parensBalanced_no_paren ?_
      intro c hc
      have hns := List.all_eq_true.mp hlit c hc
      constructor
      · rintro rfl; revert hns; decide
      · rintro rfl; revert hns; decide
    rw [extract_measurements]
    by_cases hts : ts = []
    · rw [if_pos hts]; exact ⟨none, rfl⟩
    · rw [if_neg hts]
      cases hzb : zameryBlock text with
      | none => exact ⟨none, rfl⟩
      | some blk =>
        dsimp only
        by_cases hl : pySplitlines blk = []
        · rw [if_pos hl]; exact ⟨none, rfl⟩
        · rw [if_neg hl, if_pos hpb]
          exact ⟨scanSizeLines ts (pySplitlines blk), rfl⟩
  · intro ts hne hpb
    rw [extract_measurements, if_neg hne]
    have hzb : zameryBlock ("Замеры:\nx".data) = some ('\n' :: 'x' :: []) := rfl
    rw [hzb]
    dsimp only
    rw [show pySplitlines ('\n' :: 'x' :: []) = [] :: ('x' :: []) :: [] from rfl]
    rw [if_neg (by simp), if_neg (by simp [hpb])]

/-- Witness for `extraction_totality_amended`: the no-raise clause at a
concrete description and the all-digit size `"30"`. -/
theorem extraction_totality_amended_witness :
    ∃ r : Option Str,
      extract_measurements ("Замеры:\n30 (вся длина 5 см)".data) (some ("30".data)) =
        Except.ok r :=
  extraction_totality_amended.2.1 ("Замеры:\n30 (вся длина 5 см)".data) ("30".data)
    (by decide)

/-- C9.  Duplicate measurement fragments: two distinct keyword-table
phrases mapping to the same canonical label can both match inside one
parenthesized content — here `"вся длина от плеча 50 см"` matches both
`"длина от плеча"` (a substring of it) and `"вся длина от плеча"` — and
since every table entry contributes its own fragment independently, the
output repeats the canonical label: the result is the fragment
`"длина 50 см"` twice, comma-joined. -/
theorem measurements_duplicate_labels :
    extract_measurements ("Замеры:\n30 (вся длина от плеча 50 см)".data) (some ("30".data)) =
      Except.ok (some ((("длина 50 см".data) ++ (", ".data)) ++ ("длина 50 см".data))) := by
  rfl

theorem lowerChar_cases {c d : Char} (h : lowerChar c = d) :
    c = d ∨ (c, d) ∈ lowerPairs := by
  unfold lowerChar at h
  split at h
  · next pr hf =>
    right
    have hmem := List.mem_of_find?_eq_some hf
    have hpc : pr.1 = c := by simpa using List.find?_some hf
    have : pr = (c, d) := by
      cases pr
      simp only [Prod.mk.injEq]
      exact ⟨hpc, h⟩
    rwa [this] at hmem
  · next hf => exact Or.inl h

theorem lower_l_facts {c : Char} (h : lowerChar c = 'л') :
    isWS c = false ∧ isRegexLetter c = true := by
  rcases lowerChar_cases h with rfl | hmem
  · exact ⟨by decide, by decide⟩
  · have hall : ∀ x ∈ lowerPairs, x.2 = 'л' →
        isWS x.1 = false ∧ isRegexLetter x.1 = true := by decide
    exact hall (c, 'л') hmem rfl

theorem lower_e_not_ws {c : Char} (h : lowerChar c = 'е') : isWS c = false := by
  rcases lowerChar_cases h with rfl | hmem
  · decide
  · have hall : ∀ x ∈ lowerPairs, x.2 = 'е' → isWS x.1 = false := by decide
    exact hall (c, 'е') hmem rfl

theorem lower_t_not_ws {c : Char} (h : lowerChar c = 'т') : isWS c = false := by
  rcases lowerChar_cases h with rfl | hmem
  · decide
  · have hall : ∀ x ∈ lowerPairs, x.2 = 'т' → isWS x.1 = false := by decide
    exact hall (c, 'т') hmem rfl

theorem ageCapture_shape {s2 v0 : Str} (h : ageCapture s2 = some v0) :
    ∃ (w : Str) (c1 c2 : Char) (t01 : Str),
      v0 = w ++ c1 :: c2 :: t01 ∧ lowerChar c1 = 'л' ∧ lowerChar c2 = 'е' ∧
      (t01 = [] ∨ ∃ c3, t01 = [c3] ∧ lowerChar c3 = 'т') := by
  unfold ageCapture at h
  dsimp only at h
  split at h
  case isTrue hc =>
    obtain ⟨hp, hle⟩ := hc
    obtain ⟨core, hco⟩ : ∃ w : Str,
        (if (List.takeWhile isWS (List.takeWhile ageClassChar s2)).length =
              (List.takeWhile ageClassChar s2).length then
            List.drop ((List.takeWhile ageClassChar s2).length - 1)
              (List.takeWhile ageClassChar s2)
          else
            List.drop (List.takeWhile isWS (List.takeWhile ageClassChar s2)).length
              (List.takeWhile ageClassChar s2)) = w := ⟨_, rfl⟩
    rw [hco] at h
    cases hrest : s2.drop (s2.takeWhile ageClassChar).length with
    | nil => rw [hrest] at hle; simp [ciStarts] at hle
    | cons c1 r1 =>
      cases r1 with
      | nil => rw [hrest] at hle; simp [ciStarts] at hle
      | cons c2 r2 =>
        rw [hrest] at hle h
        simp only [ciStarts, Bool.and_eq_true, beq_iff_eq] at hle
        injection h with hv
        cases r2 with
        | nil =>
          refine ⟨core, c1, c2, [], ?_, hle.1, hle.2.1, Or.inl rfl⟩
          rw [← hv]
          simp
        | cons c3 r3 =>
          by_cases h3 : (lowerChar c3 == 'т') = true
          · refine ⟨core, c1, c2, [c3], ?_, hle.1, hle.2.1,
              Or.inr ⟨c3, rfl, by simpa using h3⟩⟩
            rw [← hv]
            simp [h3]
          · refine ⟨core, c1, c2, [], ?_, hle.1, hle.2.1, Or.inl rfl⟩
            rw [← hv]
            simp [h3]
  case isFalse => exact absurd h (by simp)

theorem ageMatchAt_some {s v0 : Str} (h : ageMatchAt s = some v0) :
    ∃ s2, ageCapture s2 = some v0 := by
  unfold ageMatchAt at h
  split at h
  · exact ⟨_, h⟩
  · exact absurd h (by simp)

theorem scanAge_shape {s v0 : Str} (h : scanAge s = some v0) :
    ∃ s2, ageCapture s2 = some v0 := by
  induction s with
  | nil => simp [scanAge] at h
  | cons c cs ih =>
    rw [scanAge] at h
    cases hm : ageMatchAt (c :: cs) with
    | some r =>
      rw [hm] at h
      injection h with hr
      exact hr ▸ ageMatchAt_some hm
    | none =>
      rw [hm] at h
      exact ih h

theorem dropWhile_append_keep {p : Char → Bool} (l r : Str)
    (hr : List.dropWhile p r = r) :
    ∃ w, List.dropWhile p (l ++ r) = w ++ r := by
  rw [List.dropWhile_append]
  by_cases he : (List.dropWhile p l).isEmpty = true
  · rw [if_pos he, hr]
    exact ⟨[], rfl⟩
  · rw [if_neg he]
    exact ⟨_, rfl⟩

theorem stripStr_keep_tail {w0 : Str} {c1 c2 : Char} {t01 : Str}
    (h1 : isWS c1 = false)
    (hend : (t01 = [] ∧ isWS c2 = false) ∨ ∃ c3, t01 = [c3] ∧ isWS c3 = false) :
    ∃ w, stripStr (w0 ++ c1 :: c2 :: t01) = w ++ c1 :: c2 :: t01 := by
  unfold stripStr
  have hr : List.dropWhile isWS (c1 :: c2 :: t01) = c1 :: c2 :: t01 := by
    rw [List.dropWhile_cons, if_neg (by simp [h1])]
  obtain ⟨w1, hw1⟩ := dropWhile_append_keep w0 (c1 :: c2 :: t01) hr
  rw [hw1]
  rcases hend with ⟨ht, hc2⟩ | ⟨c3, ht, hc3⟩
  · subst ht
    rw [show (w1 ++ c1 :: c2 :: ([] : Str)).reverse = c2 :: c1 :: w1.reverse by simp]
    rw [List.dropWhile_cons, if_neg (by simp [hc2])]
    exact ⟨w1, by simp⟩
  · subst ht
    rw [show (w1 ++ c1 :: c2 :: c3 :: ([] : Str)).reverse = c3 :: c2 :: c1 :: w1.reverse by
      simp]
    rw [List.dropWhile_cons, if_neg (by simp [hc3])]
    exact ⟨w1, by simp⟩

/-- C10.  Age fallback always classifies as Size: whenever the size token is
obtained from the age fallback, the token ends (case-insensitively) with the
Cyrillic suffix `ле`/`лет`, hence contains a Cyrillic letter of the class
`[А-Яа-я]`, so `is_size_value` is true for it and the article line prints
the `"Размер"` (Size) label, never `"Рост"` (Height). -/
theorem age_fallback_classified_as_size (text v : Str)
    (h : extract_age_as_size text = some v) :
    (("ле".data) <:+ v.map lowerChar ∨ ("лет".data) <:+ v.map lowerChar)
  ∧ is_size_value v = true
  ∧ size_label v = ("Размер".data) := by
  obtain ⟨v0, hscan, rfl⟩ : ∃ v0, scanAge text = some v0 ∧ stripStr v0 = v := by
    unfold extract_age_as_size at h
    cases hs : scanAge text with
    | none => rw [hs] at h; simp at h
    | some r =>
      rw [hs] at h
      simp only [Option.map_some', Option.some.injEq] at h
      exact ⟨r, rfl, h⟩
  obtain ⟨s2, hcap⟩ := scanAge_shape hscan
  obtain ⟨w0, c1, c2, t01, rfl, hl1, hl2, ht⟩ := ageCapture_shape hcap
  have hf1 := lower_l_facts hl1
  have hend : (t01 = [] ∧ isWS c2 = false) ∨ ∃ c3, t01 = [c3] ∧ isWS c3 = false := by
    rcases ht with rfl | ⟨c3, rfl, h3⟩
    · exact Or.inl ⟨rfl, lower_e_not_ws hl2⟩
    · exact Or.inr ⟨c3, rfl, lower_t_not_ws h3⟩
  obtain ⟨w, hw⟩ := stripStr_keep_tail hf1.1 hend
  rw [hw]
  have hany : (w ++ c1 :: c2 :: t01).any isRegexLetter = true := by
    simp [hf1.2]
  have hsize : is_size_value (w ++ c1 :: c2 :: t01) = true := by
    rw [is_size_value, if_pos hany]
  refine ⟨?_, hsize, by rw [size_label, if_pos hsize]⟩
  rcases ht with rfl | ⟨c3, rfl, h3⟩
  · left
    rw [show (w ++ c1 :: c2 :: ([] : Str)).map lowerChar =
        (w.map lowerChar) ++ [lowerChar c1, lowerChar c2] by simp]
    rw [hl1, hl2]
    exact List.suffix_append _ _
  · right
    rw [show (w ++ c1 :: c2 :: [c3]).map lowerChar =
        (w.map lowerChar) ++ [lowerChar c1, lowerChar c2, lowerChar c3] by simp]
    rw [hl1, hl2, h3]
    exact List.suffix_append _ _

/-- Witness for `age_fallback_classified_as_size`: the description
`"Возраст: 5 лет"`, whose age fallback yields the token `"5 лет"`. -/
theorem age_fallback_classified_as_size_witness :
    is_size_value ("5 лет".data) = true ∧ size_label ("5 лет".data) = ("Размер".data) :=
  ⟨(age_fallback_classified_as_size ("Возраст: 5 лет".data) ("5 лет".data) (by rfl)).2.1,
   (age_fallback_classified_as_size ("Возраст: 5 лет".data) ("5 лет".data) (by rfl)).2.2⟩
